import Mathlib

/-!
Verification of the Spinnaker BOM publication workflow (`dev/publish_bom.py`).

The Python source is shallowly embedded below: pure helpers become Lean
functions, the git/remote side effects of `push_branch_and_tags` become
explicit state passing over a `RepoState`, and commands run through
`check_run_quick` (which raises on a nonzero exit) become steps returning the
state reached so far together with an optional error, so that the state at an
abort is observable, exactly as the external world keeps mutations made
before a Python exception propagates.
-/

set_option maxRecDepth 4000

/-- Last index of character `c` in a list, mirroring Python `str.rindex`
(which raises when absent, modelled as `none`). -/
def lastIndexOfChar : List Char → Char → Option Nat
  | [], _ => none
  | a :: rest, c =>
    match lastIndexOfChar rest c with
    | some i => some (i + 1)
    | none => if a = c then some 0 else none

/-- `version_tag_build = 'version-{0}'.format(component_version)`. -/
def versionTagBuild (componentVersion : String) : String :=
  "version-" ++ componentVersion

/-- `last_dash = version_tag_build.rindex('-'); version_tag = version_tag_build[:last_dash]`.
`none` models the `ValueError` Python raises when no hyphen exists. -/
def deriveVersionTag (build : String) : Option String :=
  match lastIndexOfChar build.data '-' with
  | none => none
  | some i => some ⟨build.data.take i⟩

/-- Python `str.split(sep)` for a single-character separator, on char lists:
`"1.2.3".split('.') = ['1','2','3']` and `"".split('.') = ['']`. -/
def splitOnCharList (c : Char) : List Char → List (List Char)
  | [] => [[]]
  | a :: rest =>
    match splitOnCharList c rest with
    | [] => [[]]
    | h :: t => if a = c then [] :: h :: t else (a :: h) :: t

/-- Python `s.split('.')` on strings. -/
def pySplitDot (s : String) : List String :=
  (splitOnCharList '.' s.data).map fun l => ⟨l⟩

/-- Python `sep.join(list)`. -/
def pyJoinSep (sep : String) : List String → String
  | [] => ""
  | [a] => a
  | a :: rest => a ++ sep ++ pyJoinSep sep rest

/-- Python `''.join(list)`. -/
def joinAll : List String → String
  | [] => ""
  | a :: rest => a ++ joinAll rest

/-- The fixed `COMPONENTS` list of the source. -/
def COMPONENTS : List String :=
  ["clouddriver", "deck", "echo", "front50", "gate", "igor", "orca", "rosco",
   "fiat", "spinnaker-monitoring", "spinnaker"]

/-- `format_stable_branch(major, minor)`:
`'release-' + '.'.join([major, minor, 'x'])`. -/
def format_stable_branch (major minor : String) : String :=
  "release-" ++ pyJoinSep "." [major, minor, "x"]

/-- `major, minor, _ = self.__release_version.split('.')` followed by
`format_stable_branch(major, minor)`; `none` models the `ValueError` Python
raises when the split does not yield exactly three parts. -/
def stableBranchOf (releaseVersion : String) : Option String :=
  match pySplitDot releaseVersion with
  | [major, minor, _] => some (format_stable_branch major minor)
  | _ => none

/-- The manifest key consulted for a component's version: the loop body uses
`'monitoring-daemon'` when `comp == 'spinnaker-monitoring'` and `comp`
itself otherwise. -/
def serviceKey (comp : String) : String :=
  if comp = "spinnaker-monitoring" then "monitoring-daemon" else comp

/-- `repo_to_push = 'git@github.com:{owner}/{comp}.git'`. -/
def repoToPush (owner comp : String) : String :=
  "git@github.com:" ++ owner ++ "/" ++ comp ++ ".git"

/-- One entry of the BOM's `services` mapping: a record with a `version`
string and any other fields. -/
structure ServiceEntry where
  version : String
  extra : List (String × String)
deriving DecidableEq, Repr

/-- Failures of the git commands run through `check_run_quick` (which raises
on a nonzero exit status) and of the Python dict/string lookups. -/
inductive GitErr where
  | branchMissing
  | branchExists
  | keyError
  | valueError
  | remoteExists
  | branchPushFailed
  | tagPushFailed
  | remoteMissing
deriving DecidableEq, Repr

/-- The observable git state of one component: its local working copy
(branches and configured remotes) and its GitHub repository (branches and
tags), plus a log of the tag-push commands issued during this run. -/
structure RepoState where
  localBranches : List String
  remotes : List (String × String)
  remoteBranches : List String
  remoteTags : List String
  tagPushLog : List String
deriving DecidableEq, Repr

/-- `git checkout <branch>`: fails when the branch does not exist locally. -/
def gitCheckout (branch : String) (s : RepoState) : RepoState × Option GitErr :=
  if branch ∈ s.localBranches then (s, none) else (s, some .branchMissing)

/-- `git checkout -b <branch>`: fails when the branch already exists locally,
otherwise creates it. -/
def gitCheckoutNewBranch (branch : String) (s : RepoState) :
    RepoState × Option GitErr :=
  if branch ∈ s.localBranches then (s, some .branchExists)
  else ({ s with localBranches := branch :: s.localBranches }, none)

/-- `git remote add <name> <url>`: fails when a remote of that name is
already configured. -/
def gitRemoteAdd (name url : String) (s : RepoState) : RepoState × Option GitErr :=
  if name ∈ s.remotes.map Prod.fst then (s, some .remoteExists)
  else ({ s with remotes := s.remotes ++ [(name, url)] }, none)

/-- `git push release <branch>`: `ok` is the network/remote oracle for this
push; on success the branch exists on the remote afterwards. -/
def gitPushBranch (ok : Bool) (branch : String) (s : RepoState) :
    RepoState × Option GitErr :=
  if ok then
    ({ s with remoteBranches :=
        if branch ∈ s.remoteBranches then s.remoteBranches
        else s.remoteBranches ++ [branch] }, none)
  else (s, some .branchPushFailed)

/-- `git push release <tag>`: the issued command is logged; `ok` is the
network/remote oracle; on success the tag exists on the remote afterwards. -/
def gitPushTag (ok : Bool) (tag : String) (s : RepoState) :
    RepoState × Option GitErr :=
  let s1 := { s with tagPushLog := s.tagPushLog ++ [tag] }
  if ok then ({ s1 with remoteTags := s1.remoteTags ++ [tag] }, none)
  else (s1, some .tagPushFailed)

/-- `git remote remove <name>`: fails when no such remote is configured. -/
def gitRemoteRemove (name : String) (s : RepoState) : RepoState × Option GitErr :=
  if name ∈ s.remotes.map Prod.fst then
    ({ s with remotes := s.remotes.filter fun p => p.fst ≠ name }, none)
  else (s, some .remoteMissing)

/-- Sequencing of `check_run_quick` calls: a raised error aborts the rest
but the state already reached persists. -/
def stepThen (r : RepoState × Option GitErr)
    (f : RepoState → RepoState × Option GitErr) : RepoState × Option GitErr :=
  match r with
  | (s, none) => f s
  | (s, some e) => (s, some e)

/-- Loop body of `push_branch_and_tags` after the branch checkout: version
lookup (through `serviceKey`), tag derivation, `remote add release`, branch
push, conditional tag push, `remote remove release`. -/
def componentRest (stableBranch owner comp : String)
    (services : List (String × ServiceEntry)) (branchPushOk tagPushOk : Bool)
    (s1 : RepoState) : RepoState × Option GitErr :=
  match List.lookup (serviceKey comp) services with
  | none => (s1, some .keyError)
  | some entry =>
    match deriveVersionTag (versionTagBuild entry.version) with
    | none => (s1, some .valueError)
    | some versionTag =>
      stepThen (gitRemoteAdd "release" (repoToPush owner comp) s1) fun s2 =>
      stepThen (gitPushBranch branchPushOk stableBranch s2) fun s3 =>
      stepThen
        (if versionTag ∈ s3.remoteTags then (s3, none)
         else gitPushTag tagPushOk versionTag s3) fun s4 =>
      gitRemoteRemove "release" s4

/-- Full loop body of `push_branch_and_tags` for one component `comp`:
checkout of the stable branch (`-b` unless `--patch_release`), then
`componentRest`. -/
def componentStep (patch : Bool) (stableBranch owner comp : String)
    (services : List (String × ServiceEntry)) (branchPushOk tagPushOk : Bool)
    (s : RepoState) : RepoState × Option GitErr :=
  stepThen (if patch then gitCheckout stableBranch s
            else gitCheckoutNewBranch stableBranch s)
    (componentRest stableBranch owner comp services branchPushOk tagPushOk)

/-- The `for comp in COMPONENTS` loop: components are processed in list
order; the first raised error aborts the whole run, leaving the remaining
components' working copies untouched. `pushOk` gives each component's
(branch-push, tag-push) network oracle, `states` each component's initial
working-copy state. -/
def runComponents (patch : Bool) (stableBranch owner : String)
    (services : List (String × ServiceEntry)) (pushOk : String → Bool × Bool)
    (states : String → RepoState) :
    List String → List (String × RepoState) × Option GitErr
  | [] => ([], none)
  | comp :: rest =>
    match componentStep patch stableBranch owner comp services
        (pushOk comp).1 (pushOk comp).2 (states comp) with
    | (s1, none) =>
      let r := runComponents patch stableBranch owner services pushOk states rest
      ((comp, s1) :: r.1, r.2)
    | (s1, some e) => ((comp, s1) :: rest.map (fun c => (c, states c)), some e)

/-- `push_branch_and_tags`: split the release version, compute the stable
branch once, then run the component loop over `COMPONENTS`; `none` models
the `ValueError` of a malformed release version. -/
def pushBranchAndTags (patch : Bool) (releaseVersion owner : String)
    (services : List (String × ServiceEntry)) (pushOk : String → Bool × Bool)
    (states : String → RepoState) :
    Option (List (String × RepoState) × Option GitErr) :=
  match pySplitDot releaseVersion with
  | [major, minor, _] =>
    some (runComponents patch (format_stable_branch major minor) owner
      services pushOk states COMPONENTS)
  | _ => none

/-- The in-memory BOM: a top-level `version` field, the `services` mapping,
and all other top-level fields, kept opaque. -/
structure Bom where
  version : String
  services : List (String × ServiceEntry)
  extra : List (String × String)
deriving DecidableEq, Repr

/-- Modelled from the spec: `write_bom_file`/`publish_bom` come from the
`BomGenerator` base class (file `generate_bom.py`, not available here); per
the spec they persist a manifest under the given identifier, overwriting any
prior content. We therefore record the writes `publish_release_bom` issues
as an ordered list of (identifier, manifest content) pairs. -/
def publishReleaseBomWrites (releaseVersion bomAlias : String) (bom : Bom) :
    List (String × Bom) :=
  let updated := { bom with version := releaseVersion }
  if bomAlias = "" then [(releaseVersion ++ ".yml", updated)]
  else [(releaseVersion ++ ".yml", updated), (bomAlias ++ ".yml", updated)]

/-- One gist as stored by the hosting service: visibility, file name,
file content, description. -/
structure GistRecord where
  public : Bool
  filename : String
  content : String
  description : String
deriving DecidableEq, Repr

/-- The gist hosting service, as an opaque store: uploaded gists by id. -/
structure GistHost where
  nextId : Nat
  gists : List (Nat × GistRecord)
deriving DecidableEq, Repr

/-- `create_gist(public, {filename: content}, description)`: stores the gist
under a fresh id and returns that id. -/
def createGist (h : GistHost) (pub : Bool) (filename content description : String) :
    GistHost × Nat :=
  ({ nextId := h.nextId + 1,
     gists := h.gists ++ [(h.nextId, ⟨pub, filename, content, description⟩)] },
   h.nextId)

/-- A `datetime.datetime.utcnow()` value. -/
structure UTCTime where
  year : Nat
  month : Nat
  day : Nat
  hour : Nat
  minute : Nat
  second : Nat
deriving DecidableEq, Repr

/-- Two-digit zero padding, as in strftime `%m`, `%d`, `%H`, `%M`, `%S`. -/
def pad2 (n : Nat) : String :=
  if n < 10 then "0" ++ toString n else toString n

/-- Four-digit zero padding, as in strftime `%Y`. -/
def pad4 (n : Nat) : String :=
  if n < 10 then "000" ++ toString n
  else if n < 100 then "00" ++ toString n
  else if n < 1000 then "0" ++ toString n
  else toString n

/-- `'{:%Y-%m-%d %H:%M:%S}'.format(t)`. -/
def formatTimestamp (t : UTCTime) : String :=
  pad4 t.year ++ "-" ++ pad2 t.month ++ "-" ++ pad2 t.day ++ " " ++
    pad2 t.hour ++ ":" ++ pad2 t.minute ++ ":" ++ pad2 t.second

/-- The title line `'# Spinnaker {0}\n'.format(release_version)`. -/
def changelogTitle (releaseVersion : String) : String :=
  "# Spinnaker " ++ releaseVersion ++ "\n"

/-- The signature `'\n\nGenerated by {0} at {1}'.format(publisher, timestamp)`. -/
def changelogSignature (publisher timestamp : String) : String :=
  "\n\nGenerated by " ++ publisher ++ " at " ++ timestamp

/-- The gist description `'Changelog for Spinnaker {0}'.format(release_version)`. -/
def gistDescription (releaseVersion : String) : String :=
  "Changelog for Spinnaker " ++ releaseVersion

/-- `publish_changelog_gist`: the changelog file's lines (newlines kept, as
returned by `readlines()`) are prefixed with the title line and suffixed
with the signature, joined, uploaded as a public gist named after the
changelog file, and the gist URL is returned. `now` stands for
`datetime.datetime.utcnow()`. -/
def publishChangelogGist (host : GistHost) (gistUser publisher releaseVersion : String)
    (changelogBasename : String) (fileLines : List String) (now : UTCTime) :
    GistHost × String :=
  let content := joinAll ((changelogTitle releaseVersion :: fileLines) ++
    [changelogSignature publisher (formatTimestamp now)])
  let r := createGist host true changelogBasename content
    (gistDescription releaseVersion)
  (r.1, "https://gist.github.com/" ++ gistUser ++ "/" ++ toString r.2)

/-- The command-line options of `init_argument_parser` that `main` receives. -/
structure Options where
  changelog_file : String
  github_publisher : String
  github_token : String
  gist_user : String
  patch_release : Bool
  rc_version : String
  release_name : String
  release_version : String
  changelog_gist_only : Bool
  bom_alias : String
deriving DecidableEq, Repr

/-- The four publication steps `main` can invoke. -/
inductive PublishStep where
  | unpackBom
  | publishChangelogGist
  | pushBranchAndTagsStep
  | publishReleaseBom
deriving DecidableEq, Repr

/-- `BomPublisher.main`: parses options, then calls `unpack_bom`,
`publish_changelog_gist`, `push_branch_and_tags` and `publish_release_bom`
in that order — unconditionally; no option (in particular not
`changelog_gist_only`) is consulted between the steps. -/
def mainSteps (_opts : Options) : List PublishStep :=
  [.unpackBom, .publishChangelogGist, .pushBranchAndTagsStep, .publishReleaseBom]

/-- A services mapping with a single recorded component version, used as a
concrete run input. -/
def cexServices : List (String × ServiceEntry) :=
  [("clouddriver", ⟨"1.0.0-20230101", []⟩)]

/-- A network oracle on which every branch push succeeds and every tag push
fails. -/
def cexPushOk : String → Bool × Bool := fun _ => (true, false)

/-- Fresh working copies for every component. -/
def cexStates : String → RepoState := fun _ => ⟨[], [], [], [], []⟩

/-- The outcome of a concrete non-patch `push_branch_and_tags` run on which
the first component's tag push fails. -/
def cexRunOutcome : List (String × RepoState) × Option GitErr :=
  (pushBranchAndTags false "1.0.0" "acme" cexServices cexPushOk cexStates).getD
    ([], none)

/-- The names of the remotes configured in a working copy. -/
def remoteNames (s : RepoState) : List String :=
  s.remotes.map Prod.fst

/-- A concrete, fully populated option set with `--changelog_gist_only`. -/
def gistOnlyOptions : Options :=
  { changelog_file := "changelog.md"
    github_publisher := "acme"
    github_token := "token"
    gist_user := "acme-bot"
    patch_release := false
    rc_version := "1.0.0-rc1"
    release_name := "Release One"
    release_version := "1.0.0"
    changelog_gist_only := true
    bom_alias := "" }

/-! ### Library lemmas about the helpers -/

theorem lastIndexOfChar_of_not_mem {l : List Char} {c : Char} (h : c ∉ l) :
    lastIndexOfChar l c = none := by
  induction l with
  | nil => rfl
  | cons a rest ih =>
    have ha : a ≠ c := fun hac => h (hac ▸ List.mem_cons_self a rest)
    have hr : c ∉ rest := fun hm => h (List.mem_cons_of_mem a hm)
    simp [lastIndexOfChar, ih hr, ha]

theorem lastIndexOfChar_append_cons {l₂ : List Char} {c : Char} (h : c ∉ l₂)
    (l₁ : List Char) : lastIndexOfChar (l₁ ++ c :: l₂) c = some l₁.length := by
  induction l₁ with
  | nil => simp [lastIndexOfChar, lastIndexOfChar_of_not_mem h]
  | cons a rest ih => simp [lastIndexOfChar, ih]

theorem lastIndexOfChar_isSome_of_mem {l : List Char} {c : Char} (h : c ∈ l) :
    (lastIndexOfChar l c).isSome := by
  induction l with
  | nil => simp at h
  | cons a rest ih =>
    rcases List.mem_cons.mp h with hac | hm
    · subst hac
      cases hr : lastIndexOfChar rest c with
      | none => simp [lastIndexOfChar, hr]
      | some i => simp [lastIndexOfChar, hr]
    · have := ih hm
      cases hr : lastIndexOfChar rest c with
      | none => simp [hr] at this
      | some i => simp [lastIndexOfChar, hr]

theorem joinAll_append (l₁ l₂ : List String) :
    joinAll (l₁ ++ l₂) = joinAll l₁ ++ joinAll l₂ := by
  induction l₁ with
  | nil => simp [joinAll]
  | cons a rest ih => simp [joinAll, ih, String.append_assoc]

/-! ### Lemmas about the git steps -/

theorem stepThen_ok {r : RepoState × Option GitErr}
    {f : RepoState → RepoState × Option GitErr}
    (h : (stepThen r f).2 = none) : r.2 = none ∧ stepThen r f = f r.1 := by
  rcases r with ⟨s, e⟩
  cases e with
  | none => exact ⟨rfl, rfl⟩
  | some e => simp [stepThen] at h

theorem stepThen_err {s : RepoState} {e : GitErr}
    (f : RepoState → RepoState × Option GitErr) :
    stepThen (s, some e) f = (s, some e) := rfl

theorem gitRemoteAdd_ok {n u : String} {s : RepoState}
    (h : (gitRemoteAdd n u s).2 = none) :
    n ∉ s.remotes.map Prod.fst ∧
      gitRemoteAdd n u s = ({ s with remotes := s.remotes ++ [(n, u)] }, none) := by
  by_cases hn : n ∈ s.remotes.map Prod.fst
  · simp [gitRemoteAdd, hn] at h
  · exact ⟨hn, by simp [gitRemoteAdd, hn]⟩

theorem gitPushBranch_ok {b : Bool} {br : String} {s : RepoState}
    (h : (gitPushBranch b br s).2 = none) :
    b = true ∧ gitPushBranch b br s =
      ({ s with remoteBranches :=
          if br ∈ s.remoteBranches then s.remoteBranches
          else s.remoteBranches ++ [br] }, none) := by
  cases b with
  | false => simp [gitPushBranch] at h
  | true => exact ⟨rfl, by simp [gitPushBranch]⟩

theorem gitPushTag_ok {t : Bool} {tag : String} {s : RepoState}
    (h : (gitPushTag t tag s).2 = none) :
    t = true ∧ gitPushTag t tag s =
      ({ s with
          remoteTags := s.remoteTags ++ [tag]
          tagPushLog := s.tagPushLog ++ [tag] }, none) := by
  cases t with
  | false => simp [gitPushTag] at h
  | true => exact ⟨rfl, by simp [gitPushTag]⟩

theorem filter_removes_fresh_remote {l : List (String × String)} {n u : String}
    (hn : n ∉ l.map Prod.fst) :
    (l ++ [(n, u)]).filter (fun p => p.fst ≠ n) = l := by
  rw [List.filter_append]
  have h1 : l.filter (fun p => p.fst ≠ n) = l := by
    apply List.filter_eq_self.mpr
    intro p hp
    simp only [ne_eq, decide_not, Bool.not_eq_true', decide_eq_false_iff_not]
    exact fun hf => hn (hf ▸ List.mem_map_of_mem Prod.fst hp)
  have h2 : ([(n, u)] : List (String × String)).filter (fun p => p.fst ≠ n) = [] := by
    simp
  rw [h1, h2, List.append_nil]

theorem gitRemoteRemove_of_mem {n : String} {s : RepoState}
    (hn : n ∈ s.remotes.map Prod.fst) :
    gitRemoteRemove n s =
      ({ s with remotes := s.remotes.filter fun p => p.fst ≠ n }, none) := by
  simp [gitRemoteRemove, hn]

theorem componentRest_ok {st ow c : String} {sv : List (String × ServiceEntry)}
    {b t : Bool} {s1 : RepoState}
    (h : (componentRest st ow c sv b t s1).2 = none) :
    ∃ entry tag, List.lookup (serviceKey c) sv = some entry ∧
      deriveVersionTag (versionTagBuild entry.version) = some tag ∧
      "release" ∉ s1.remotes.map Prod.fst ∧ b = true ∧
      ((tag ∈ s1.remoteTags ∧
          (componentRest st ow c sv b t s1).1 =
            { s1 with remoteBranches :=
                if st ∈ s1.remoteBranches then s1.remoteBranches
                else s1.remoteBranches ++ [st] }) ∨
        (tag ∉ s1.remoteTags ∧ t = true ∧
          (componentRest st ow c sv b t s1).1 =
            { s1 with
                remoteBranches :=
                  if st ∈ s1.remoteBranches then s1.remoteBranches
                  else s1.remoteBranches ++ [st]
                remoteTags := s1.remoteTags ++ [tag]
                tagPushLog := s1.tagPushLog ++ [tag] })) := by
  cases hl : List.lookup (serviceKey c) sv with
  | none =>
    exfalso
    unfold componentRest at h
    rw [hl] at h
    simp at h
  | some entry =>
    cases ht : deriveVersionTag (versionTagBuild entry.version) with
    | none =>
      exfalso
      unfold componentRest at h
      rw [hl] at h
      simp [ht] at h
    | some tag =>
      by_cases hrel : "release" ∈ s1.remotes.map Prod.fst
      · exfalso
        unfold componentRest at h
        rw [hl] at h
        simp [ht, stepThen, gitRemoteAdd, hrel] at h
      · cases b with
        | false =>
          exfalso
          unfold componentRest at h
          rw [hl] at h
          simp [ht, stepThen, gitRemoteAdd, gitPushBranch, hrel] at h
        | true =>
          by_cases hmem : tag ∈ s1.remoteTags
          · refine ⟨entry, tag, rfl, ht, hrel, rfl, Or.inl ⟨hmem, ?_⟩⟩
            unfold componentRest
            rw [hl]
            simp [ht, stepThen, gitRemoteAdd, gitPushBranch, gitRemoteRemove,
              hrel, hmem, filter_removes_fresh_remote hrel]
            exact fun a bb hab heq => hrel (heq ▸ List.mem_map_of_mem Prod.fst hab)
          · cases t with
            | false =>
              exfalso
              unfold componentRest at h
              rw [hl] at h
              simp [ht, stepThen, gitRemoteAdd, gitPushBranch, gitPushTag,
                hrel, hmem] at h
            | true =>
              refine ⟨entry, tag, rfl, ht, hrel, rfl, Or.inr ⟨hmem, rfl, ?_⟩⟩
              unfold componentRest
              rw [hl]
              simp [ht, stepThen, gitRemoteAdd, gitPushBranch, gitPushTag,
                gitRemoteRemove, hrel, hmem, filter_removes_fresh_remote hrel]
              exact fun a bb hab heq => hrel (heq ▸ List.mem_map_of_mem Prod.fst hab)

theorem componentRest_localBranches (st ow c : String)
    (sv : List (String × ServiceEntry)) (b t : Bool) (s1 : RepoState) :
    (componentRest st ow c sv b t s1).1.localBranches = s1.localBranches := by
  unfold componentRest
  cases hl : List.lookup (serviceKey c) sv with
  | none => rfl
  | some entry =>
    cases ht : deriveVersionTag (versionTagBuild entry.version) with
    | none => simp [ht]
    | some tag =>
      by_cases hrel : "release" ∈ s1.remotes.map Prod.fst
      · simp [ht, stepThen, gitRemoteAdd, hrel]
      · cases b with
        | false => simp [ht, stepThen, gitRemoteAdd, gitPushBranch, hrel]
        | true =>
          by_cases hmem : tag ∈ s1.remoteTags
          · simp [ht, stepThen, gitRemoteAdd, gitPushBranch, gitRemoteRemove,
              hrel, hmem]
          · cases t with
            | false =>
              simp [ht, stepThen, gitRemoteAdd, gitPushBranch, gitPushTag,
                hrel, hmem]
            | true =>
              simp [ht, stepThen, gitRemoteAdd, gitPushBranch, gitPushTag,
                gitRemoteRemove, hrel, hmem]

theorem componentRest_log_of_tag_present {st ow c : String}
    {sv : List (String × ServiceEntry)} {b t : Bool} {s1 : RepoState}
    {entry : ServiceEntry} {tag : String}
    (hl : List.lookup (serviceKey c) sv = some entry)
    (ht : deriveVersionTag (versionTagBuild entry.version) = some tag)
    (hmem : tag ∈ s1.remoteTags) :
    (componentRest st ow c sv b t s1).1.tagPushLog = s1.tagPushLog := by
  unfold componentRest
  rw [hl]
  by_cases hrel : "release" ∈ s1.remotes.map Prod.fst
  · simp [ht, stepThen, gitRemoteAdd, hrel]
  · cases b with
    | false => simp [ht, stepThen, gitRemoteAdd, gitPushBranch, hrel]
    | true =>
      simp [ht, stepThen, gitRemoteAdd, gitPushBranch, gitRemoteRemove,
        hrel, hmem]

theorem componentStep_patch_found {st : String} {s : RepoState}
    (ow c : String) (sv : List (String × ServiceEntry)) (b t : Bool)
    (hm : st ∈ s.localBranches) :
    componentStep true st ow c sv b t s = componentRest st ow c sv b t s := by
  simp [componentStep, stepThen, gitCheckout, hm]

theorem componentStep_patch_missing {st : String} {s : RepoState}
    (ow c : String) (sv : List (String × ServiceEntry)) (b t : Bool)
    (hm : st ∉ s.localBranches) :
    componentStep true st ow c sv b t s = (s, some GitErr.branchMissing) := by
  simp [componentStep, stepThen, gitCheckout, hm]

theorem componentStep_new_branch {st : String} {s : RepoState}
    (ow c : String) (sv : List (String × ServiceEntry)) (b t : Bool)
    (hm : st ∉ s.localBranches) :
    componentStep false st ow c sv b t s =
      componentRest st ow c sv b t
        { s with localBranches := st :: s.localBranches } := by
  simp [componentStep, stepThen, gitCheckoutNewBranch, hm]

theorem componentStep_new_branch_exists {st : String} {s : RepoState}
    (ow c : String) (sv : List (String × ServiceEntry)) (b t : Bool)
    (hm : st ∈ s.localBranches) :
    componentStep false st ow c sv b t s = (s, some GitErr.branchExists) := by
  simp [componentStep, stepThen, gitCheckoutNewBranch, hm]

theorem componentStep_ok {patch : Bool} {st ow c : String}
    {sv : List (String × ServiceEntry)} {b t : Bool} {s : RepoState}
    (h : (componentStep patch st ow c sv b t s).2 = none) :
    ∃ s1 : RepoState,
      s1.remotes = s.remotes ∧ s1.remoteTags = s.remoteTags ∧
      s1.tagPushLog = s.tagPushLog ∧
      (patch = true → s1.localBranches = s.localBranches) ∧
      (patch = false →
        st ∉ s.localBranches ∧ s1.localBranches = st :: s.localBranches) ∧
      componentStep patch st ow c sv b t s = componentRest st ow c sv b t s1 := by
  cases patch with
  | false =>
    by_cases hm : st ∈ s.localBranches
    · rw [componentStep_new_branch_exists ow c sv b t hm] at h
      simp at h
    · exact ⟨{ s with localBranches := st :: s.localBranches }, rfl, rfl, rfl,
        by simp, fun _ => ⟨hm, rfl⟩,
        componentStep_new_branch ow c sv b t hm⟩
  | true =>
    by_cases hm : st ∈ s.localBranches
    · exact ⟨s, rfl, rfl, rfl, fun _ => rfl, by simp,
        componentStep_patch_found ow c sv b t hm⟩
    · rw [componentStep_patch_missing ow c sv b t hm] at h
      simp at h

theorem componentStep_log_of_tag_present {patch : Bool} {st ow c : String}
    {sv : List (String × ServiceEntry)} {b t : Bool} {s : RepoState}
    {entry : ServiceEntry} {tag : String}
    (hl : List.lookup (serviceKey c) sv = some entry)
    (ht : deriveVersionTag (versionTagBuild entry.version) = some tag)
    (hmem : tag ∈ s.remoteTags) :
    (componentStep patch st ow c sv b t s).1.tagPushLog = s.tagPushLog := by
  cases patch with
  | false =>
    by_cases hm : st ∈ s.localBranches
    · rw [componentStep_new_branch_exists ow c sv b t hm]
    · rw [componentStep_new_branch ow c sv b t hm]
      exact componentRest_log_of_tag_present hl ht hmem
  | true =>
    by_cases hm : st ∈ s.localBranches
    · rw [componentStep_patch_found ow c sv b t hm]
      exact componentRest_log_of_tag_present hl ht hmem
    · rw [componentStep_patch_missing ow c sv b t hm]

/-! ### Claim theorems -/

/-- C4 (confirmed): for every version-tag-build string of the form
`version-<semver>-<suffix>` with at least one hyphen after the `version-`
prefix (the final segment `suffix` holding no hyphen), tag derivation
returns exactly the substring up to, not including, the last
hyphen-delimited segment. -/
theorem c4_tag_derivation_strips_last_segment (semver suffix : String)
    (h : '-' ∉ suffix.data) :
    deriveVersionTag ("version-" ++ semver ++ "-" ++ suffix) =
      some ("version-" ++ semver) := by
  have hd : ("version-" ++ semver ++ "-" ++ suffix).data =
      ("version-" ++ semver).data ++ '-' :: suffix.data := by
    rw [String.data_append, String.data_append, List.append_assoc]
    rfl
  unfold deriveVersionTag
  rw [hd, lastIndexOfChar_append_cons h]
  simp [List.take_left]
  rfl

/-- Witness for C4 at the spec's example:
`version-1.2.3-20230101120000` yields `version-1.2.3`. -/
theorem c4_witness :
    deriveVersionTag ("version-" ++ "1.2.3" ++ "-" ++ "20230101120000") =
      some ("version-" ++ "1.2.3") :=
  c4_tag_derivation_strips_last_segment "1.2.3" "20230101120000" (by decide)

/-- C10 (confirmed): tag derivation is total over all component version
strings because the `version-` prefix always contributes a hyphen; for a
hyphen-free component version the derived tag is exactly `version` and no
error is raised. -/
theorem c10_tag_derivation_total (v : String) :
    (deriveVersionTag (versionTagBuild v)).isSome = true ∧
      ('-' ∉ v.data → deriveVersionTag (versionTagBuild v) = some "version") := by
  have hd : (versionTagBuild v).data = "version".data ++ '-' :: v.data := by
    unfold versionTagBuild
    rw [String.data_append]
    rfl
  constructor
  · have hm : '-' ∈ (versionTagBuild v).data := by
      rw [hd]
      exact List.mem_append_right _ (List.mem_cons_self _ _)
    have hs := lastIndexOfChar_isSome_of_mem hm
    unfold deriveVersionTag
    cases hx : lastIndexOfChar (versionTagBuild v).data '-' with
    | none => rw [hx] at hs; simp at hs
    | some i => simp
  · intro hnm
    unfold deriveVersionTag
    rw [hd, lastIndexOfChar_append_cons hnm]
    simp [List.take_left]

/-- Witness for C10 at the hyphen-free component version `abc`. -/
theorem c10_witness :
    deriveVersionTag (versionTagBuild "abc") = some "version" :=
  (c10_tag_derivation_total "abc").2 (by decide)

/-- C2 (code_bug evidence): with `--changelog_gist_only` set, `main` still
runs all four steps — `unpack_bom`, `publish_changelog_gist`,
`push_branch_and_tags`, `publish_release_bom` — because it never consults
the flag, contradicting the flag's own help text. -/
theorem c2_changelog_gist_only_flag_ignored :
    gistOnlyOptions.changelog_gist_only = true ∧
    mainSteps gistOnlyOptions =
      [PublishStep.unpackBom, PublishStep.publishChangelogGist,
       PublishStep.pushBranchAndTagsStep, PublishStep.publishReleaseBom] :=
  ⟨rfl, rfl⟩

/-- C6 (confirmed): the monitoring component's version lookup key is
`monitoring-daemon`, while its identity in the component list and its
remote repository name remain `spinnaker-monitoring`; every other
component's lookup key is the component name itself. -/
theorem c6_monitoring_daemon_key :
    serviceKey "spinnaker-monitoring" = "monitoring-daemon" ∧
    "spinnaker-monitoring" ∈ COMPONENTS ∧
    (∀ owner : String, repoToPush owner "spinnaker-monitoring" =
        "git@github.com:" ++ owner ++ "/spinnaker-monitoring.git") ∧
    (∀ sv : List (String × ServiceEntry),
        List.lookup (serviceKey "spinnaker-monitoring") sv =
          List.lookup "monitoring-daemon" sv) ∧
    (∀ c ∈ COMPONENTS, c ≠ "spinnaker-monitoring" → serviceKey c = c) := by
  refine ⟨rfl, by decide, ?_, ?_, ?_⟩
  · intro owner
    unfold repoToPush
    rw [String.append_assoc ("git@github.com:" ++ owner ++ "/")
        "spinnaker-monitoring" ".git",
      String.append_assoc ("git@github.com:" ++ owner) "/"
        ("spinnaker-monitoring" ++ ".git")]
    rfl
  · intro sv
    rfl
  · intro c _ hc
    simp [serviceKey, hc]

/-- Witness for C6: the hypothesis-bearing conjunct instantiated at the
`clouddriver` component. -/
theorem c6_witness : serviceKey "clouddriver" = "clouddriver" :=
  c6_monitoring_daemon_key.2.2.2.2 "clouddriver" (by decide) (by decide)

/-- C7 (confirmed): manifest publication writes the loaded BOM with only
its top-level version field rewritten to the release version — services and
all other fields unchanged — under `<release_version>.yml`, and, when an
alias is set, the identical content additionally under `<alias>.yml`. -/
theorem c7_publish_release_bom_writes (releaseVersion bomAlias : String)
    (bom : Bom) :
    ((publishReleaseBomWrites releaseVersion bomAlias bom).map Prod.fst =
        if bomAlias = "" then [releaseVersion ++ ".yml"]
        else [releaseVersion ++ ".yml", bomAlias ++ ".yml"]) ∧
    ∀ p ∈ publishReleaseBomWrites releaseVersion bomAlias bom,
      p.2.version = releaseVersion ∧ p.2.services = bom.services ∧
        p.2.extra = bom.extra := by
  unfold publishReleaseBomWrites
  by_cases ha : bomAlias = ""
  · simp [ha]
  · simp [ha]

/-- Witness for C7: the membership hypothesis discharged on the write under
the release-version identifier, with an alias set. -/
theorem c7_witness :
    (("1.0.1.yml",
        ({ version := "1.0.1",
           services := [("clouddriver", ⟨"1.0.0-abc", []⟩)],
           extra := [("artifactSources", "gcs")] } : Bom)) : String × Bom).2.version =
        "1.0.1" ∧
      (("1.0.1.yml",
        ({ version := "1.0.1",
           services := [("clouddriver", ⟨"1.0.0-abc", []⟩)],
           extra := [("artifactSources", "gcs")] } : Bom)) : String × Bom).2.services =
        ({ version := "rc-9",
           services := [("clouddriver", ⟨"1.0.0-abc", []⟩)],
           extra := [("artifactSources", "gcs")] } : Bom).services ∧
      (("1.0.1.yml",
        ({ version := "1.0.1",
           services := [("clouddriver", ⟨"1.0.0-abc", []⟩)],
           extra := [("artifactSources", "gcs")] } : Bom)) : String × Bom).2.extra =
        ({ version := "rc-9",
           services := [("clouddriver", ⟨"1.0.0-abc", []⟩)],
           extra := [("artifactSources", "gcs")] } : Bom).extra :=
  (c7_publish_release_bom_writes "1.0.1" "latest"
      ⟨"rc-9", [("clouddriver", ⟨"1.0.0-abc", []⟩)], [("artifactSources", "gcs")]⟩).2
    ("1.0.1.yml",
      ⟨"1.0.1", [("clouddriver", ⟨"1.0.0-abc", []⟩)], [("artifactSources", "gcs")]⟩)
    (by decide)

theorem runComponents_branch_created {st ow : String}
    {sv : List (String × ServiceEntry)} {pushOk : String → Bool × Bool}
    {states : String → RepoState} {comps : List String}
    (h : (runComponents false st ow sv pushOk states comps).2 = none) :
    ∀ pr ∈ (runComponents false st ow sv pushOk states comps).1,
      st ∈ pr.2.localBranches := by
  revert h
  induction comps with
  | nil =>
    intro h pr hm
    simp [runComponents] at hm
  | cons comp rest ih =>
    intro h pr hm
    cases hcs : componentStep false st ow comp sv (pushOk comp).1
        (pushOk comp).2 (states comp) with
    | mk s1 e =>
      cases e with
      | none =>
        have hrun : runComponents false st ow sv pushOk states (comp :: rest) =
            ((comp, s1) :: (runComponents false st ow sv pushOk states rest).1,
              (runComponents false st ow sv pushOk states rest).2) := by
          simp [runComponents, hcs]
        rw [hrun] at h hm
        rcases List.mem_cons.mp hm with hpr | hpr
        · subst hpr
          have h2 : (componentStep false st ow comp sv (pushOk comp).1
              (pushOk comp).2 (states comp)).2 = none := by rw [hcs]
          obtain ⟨s1', _, _, _, _, hnf, heq⟩ := componentStep_ok h2
          obtain ⟨_, hloc⟩ := hnf rfl
          have hres : (componentStep false st ow comp sv (pushOk comp).1
              (pushOk comp).2 (states comp)).1 = s1 := by rw [hcs]
          rw [heq] at hres
          have hl := componentRest_localBranches st ow comp sv (pushOk comp).1
            (pushOk comp).2 s1'
          rw [hres] at hl
          show st ∈ s1.localBranches
          rw [hl, hloc]
          exact List.mem_cons_self _ _
        · exact ih h pr hpr
      | some e =>
        have hrun : runComponents false st ow sv pushOk states (comp :: rest) =
            ((comp, s1) :: rest.map (fun c => (c, states c)), some e) := by
          simp [runComponents, hcs]
        rw [hrun] at h
        simp at h

/-- C9 (confirmed): the stable-branch-name function is pure and total,
returns exactly `release-<major>.<minor>.x`, is independent of the patch
number of the release version, and — computed once before the component
loop — yields the same branch for every component of a completed run. -/
theorem c9_stable_branch_name :
    (∀ major minor : String,
        format_stable_branch major minor =
          "release-" ++ major ++ "." ++ minor ++ ".x") ∧
    (∀ v₁ v₂ major minor p₁ p₂ : String,
        pySplitDot v₁ = [major, minor, p₁] →
        pySplitDot v₂ = [major, minor, p₂] →
        stableBranchOf v₁ = stableBranchOf v₂) ∧
    (∀ (rv ow major minor p : String) (sv : List (String × ServiceEntry))
        (pushOk : String → Bool × Bool) (states : String → RepoState)
        (r : List (String × RepoState) × Option GitErr),
        pySplitDot rv = [major, minor, p] →
        pushBranchAndTags false rv ow sv pushOk states = some r →
        r.2 = none →
        ∀ pr ∈ r.1, format_stable_branch major minor ∈ pr.2.localBranches) := by
  refine ⟨?_, ?_, ?_⟩
  · intro major minor
    have hx : ("." : String) ++ "x" = ".x" := rfl
    simp [format_stable_branch, pyJoinSep, String.append_assoc, hx]
  · intro v₁ v₂ major minor p₁ p₂ h1 h2
    unfold stableBranchOf
    rw [h1, h2]
  · intro rv ow major minor p sv pushOk states r hsplit hrun hok pr hm
    unfold pushBranchAndTags at hrun
    rw [hsplit] at hrun
    have hr : r = runComponents false (format_stable_branch major minor) ow
        sv pushOk states COMPONENTS := (Option.some.inj hrun).symm
    subst hr
    exact runComponents_branch_created hok pr hm

/-- Witness for C9: patch-independence of the stable branch at release
versions `1.2.3` and `1.2.9`. -/
theorem c9_witness : stableBranchOf "1.2.3" = stableBranchOf "1.2.9" :=
  c9_stable_branch_name.2.1 "1.2.3" "1.2.9" "1" "2" "3" "9"
    (by decide) (by decide)

/-- C1 is refuted on the code: a concrete non-patch run on which the first
component's tag push fails terminates with the `release` remote still
configured in that component's working copy — `push_branch_and_tags` has no
exit-path-covering cleanup, so the `remote remove` of the cleanup step never
runs once the tag push raises. -/
theorem c1_release_remote_leak_cex :
    cexRunOutcome.2 = some GitErr.tagPushFailed ∧
      (List.lookup "clouddriver" cexRunOutcome.1).map remoteNames =
        some ["release"] := by decide

/-- C1 (corrected): the temporary `release` push remote is removed before
the run moves past a component on every path on which that component's step
completes without error; when the branch push or a needed tag push fails,
the run aborts before the cleanup command, leaving the remote configured
(see the counterexample). -/
theorem c1_release_remote_removed_on_success (patch : Bool)
    (st ow c : String) (sv : List (String × ServiceEntry)) (b t : Bool)
    (s : RepoState)
    (h : (componentStep patch st ow c sv b t s).2 = none) :
    "release" ∉ remoteNames (componentStep patch st ow c sv b t s).1 := by
  obtain ⟨s1, hrem, _, _, _, _, heq⟩ := componentStep_ok h
  rw [heq] at h ⊢
  obtain ⟨entry, tag, _, ht, hrel, _, hAB⟩ := componentRest_ok h
  rcases hAB with ⟨_, hres⟩ | ⟨_, _, hres⟩
  · rw [hres]
    simpa [remoteNames] using hrel
  · rw [hres]
    simpa [remoteNames] using hrel

/-- Witness for C1's amended claim: a fully successful component step leaves
no `release` remote behind. -/
theorem c1_witness :
    "release" ∉ remoteNames (componentStep false "release-1.0.x" "acme"
      "clouddriver" cexServices true true ⟨[], [], [], [], []⟩).1 :=
  c1_release_remote_removed_on_success false "release-1.0.x" "acme"
    "clouddriver" cexServices true true ⟨[], [], [], [], []⟩ (by decide)

/-- C8 (confirmed): branch selection is governed by the run-wide
`patch_release` flag — patch mode checks out the existing stable branch and
fails with `branchMissing` when it is absent; new-release mode creates it
and fails with `branchExists` when it is already present, so a second
non-patch invocation for the same release version fails. -/
theorem c8_branch_mode_behavior (st ow c : String)
    (sv : List (String × ServiceEntry)) (b t : Bool) (s : RepoState) :
    (st ∉ s.localBranches →
        componentStep true st ow c sv b t s = (s, some GitErr.branchMissing)) ∧
    (st ∈ s.localBranches →
        componentStep true st ow c sv b t s = componentRest st ow c sv b t s) ∧
    (st ∈ s.localBranches →
        componentStep false st ow c sv b t s = (s, some GitErr.branchExists)) ∧
    (st ∉ s.localBranches →
        componentStep false st ow c sv b t s =
          componentRest st ow c sv b t
            { s with localBranches := st :: s.localBranches }) ∧
    ((componentStep false st ow c sv b t s).2 = none →
      ∀ b2 t2 : Bool,
        (componentStep false st ow c sv b2 t2
            (componentStep false st ow c sv b t s).1).2 =
          some GitErr.branchExists) := by
  refine ⟨fun hm => componentStep_patch_missing ow c sv b t hm,
    fun hm => componentStep_patch_found ow c sv b t hm,
    fun hm => componentStep_new_branch_exists ow c sv b t hm,
    fun hm => componentStep_new_branch ow c sv b t hm, ?_⟩
  intro h b2 t2
  obtain ⟨s1, _, _, _, _, hnf, heq⟩ := componentStep_ok h
  obtain ⟨hnotin, hloc⟩ := hnf rfl
  have hmem : st ∈ (componentStep false st ow c sv b t s).1.localBranches := by
    rw [heq, componentRest_localBranches, hloc]
    exact List.mem_cons_self _ _
  rw [componentStep_new_branch_exists ow c sv b2 t2 hmem]

/-- Witness for C8: patch-mode checkout on a fresh working copy fails with
`branchMissing`. -/
theorem c8_witness :
    componentStep true "release-1.0.x" "acme" "clouddriver" cexServices true
        true ⟨[], [], [], [], []⟩ =
      (⟨[], [], [], [], []⟩, some GitErr.branchMissing) :=
  (c8_branch_mode_behavior "release-1.0.x" "acme" "clouddriver" cexServices
      true true ⟨[], [], [], [], []⟩).1 (by decide)

theorem componentStep_tag_mem_of_ok {patch : Bool} {st ow c : String}
    {sv : List (String × ServiceEntry)} {b t : Bool} {s : RepoState}
    {entry : ServiceEntry} {tag : String}
    (hv : List.lookup (serviceKey c) sv = some entry)
    (ht : deriveVersionTag (versionTagBuild entry.version) = some tag)
    (h : (componentStep patch st ow c sv b t s).2 = none) :
    tag ∈ (componentStep patch st ow c sv b t s).1.remoteTags := by
  obtain ⟨s1, _, _, _, _, _, heq⟩ := componentStep_ok h
  rw [heq] at h ⊢
  obtain ⟨entry2, tag2, hv2, ht2, _, _, hAB⟩ := componentRest_ok h
  have he : entry2 = entry := Option.some.inj (hv2.symm.trans hv)
  subst he
  have htg : tag2 = tag := Option.some.inj (ht2.symm.trans ht)
  subst htg
  rcases hAB with ⟨hmem, hres⟩ | ⟨hmem, _, hres⟩
  · rw [hres]
    simpa using hmem
  · rw [hres]
    simp

/-- C3 (confirmed): a component's version tag is pushed if and only if it is
absent from the remote repository's tag names at the time of the check; with
the tag already present no push command is issued on any path, and after a
successful step the tag is present, so an identical re-run issues no tag
push. -/
theorem c3_tag_pushed_iff_absent (patch : Bool) (st ow c : String)
    (sv : List (String × ServiceEntry)) (b t : Bool) (s : RepoState)
    (entry : ServiceEntry) (tag : String)
    (hv : List.lookup (serviceKey c) sv = some entry)
    (ht : deriveVersionTag (versionTagBuild entry.version) = some tag) :
    ((componentStep patch st ow c sv b t s).2 = none →
      ((componentStep patch st ow c sv b t s).1.tagPushLog =
          s.tagPushLog ++ [tag] ↔ tag ∉ s.remoteTags)) ∧
    (tag ∈ s.remoteTags →
      (componentStep patch st ow c sv b t s).1.tagPushLog = s.tagPushLog) ∧
    ((componentStep patch st ow c sv b t s).2 = none →
      tag ∈ (componentStep patch st ow c sv b t s).1.remoteTags) ∧
    ((componentStep patch st ow c sv b t s).2 = none →
      ∀ patch2 b2 t2 : Bool,
        (componentStep patch2 st ow c sv b2 t2
            (componentStep patch st ow c sv b t s).1).1.tagPushLog =
          (componentStep patch st ow c sv b t s).1.tagPushLog) := by
  refine ⟨?_, ?_, ?_, ?_⟩
  · intro h
    obtain ⟨s1, _, htags, hlog, _, _, heq⟩ := componentStep_ok h
    rw [heq] at h ⊢
    obtain ⟨entry2, tag2, hv2, ht2, _, _, hAB⟩ := componentRest_ok h
    have htg : tag2 = tag :=
      Option.some.inj ((Option.some.inj (hv2.symm.trans hv) ▸ ht2).symm.trans ht)
    rcases hAB with ⟨hmem, hres⟩ | ⟨hmem, htt, hres⟩
    · rw [htg] at hmem
      have hmem2 : tag ∈ s.remoteTags := htags ▸ hmem
      rw [hres]
      simp only [hmem2, not_true_eq_false, iff_false]
      intro hcontra
      have hlen := congrArg List.length hcontra
      simp [hlog] at hlen
    · rw [htg] at hmem hres
      have hmem2 : tag ∉ s.remoteTags := fun hin => hmem (htags ▸ hin)
      rw [hres]
      simp [hlog, hmem2]
  · intro hmem
    exact componentStep_log_of_tag_present hv ht hmem
  · intro h
    exact componentStep_tag_mem_of_ok hv ht h
  · intro h patch2 b2 t2
    exact componentStep_log_of_tag_present hv ht
      (componentStep_tag_mem_of_ok hv ht h)

/-- Witness for C3: with the tag already on the remote, a component step
issues no tag push. -/
theorem c3_witness :
    (componentStep false "release-1.0.x" "acme" "clouddriver" cexServices
        true true ⟨[], [], [], ["version-1.0.0"], []⟩).1.tagPushLog =
      (⟨[], [], [], ["version-1.0.0"], []⟩ : RepoState).tagPushLog :=
  (c3_tag_pushed_iff_absent false "release-1.0.x" "acme" "clouddriver"
      cexServices true true ⟨[], [], [], ["version-1.0.0"], []⟩
      ⟨"1.0.0-20230101", []⟩ "version-1.0.0" (by decide) (by decide)).2.1
    (by decide)

theorem lookup_append_fresh {β : Type} (l : List (Nat × β)) (k : Nat) (v : β)
    (h : k ∉ l.map Prod.fst) : List.lookup k (l ++ [(k, v)]) = some v := by
  induction l with
  | nil => simp [List.lookup]
  | cons a rest ih =>
    have hk : k ≠ a.1 := fun he =>
      h (he ▸ List.mem_map_of_mem Prod.fst (List.mem_cons_self a rest))
    have hr : k ∉ rest.map Prod.fst := fun hm => h (by simp [hm])
    rcases a with ⟨k1, v1⟩
    have hb : (k == k1) = false := by
      simpa using hk
    simp [List.lookup, hb, ih hr]

/-- C5 (confirmed): changelog publication uploads a document made of the
title line `# Spinnaker <release_version>`, the original file content
unchanged, and a trailing `Generated by <publisher> at <timestamp>`
attribution with the formatted UTC timestamp; the upload carries the
description `Changelog for Spinnaker <release_version>`, and the returned
URL refers to the artifact stored by the hosting service. -/
theorem c5_changelog_gist_structure (host : GistHost)
    (gistUser publisher releaseVersion changelogBasename : String)
    (fileLines : List String) (now : UTCTime)
    (hfresh : host.nextId ∉ host.gists.map Prod.fst) :
    (publishChangelogGist host gistUser publisher releaseVersion
        changelogBasename fileLines now).2 =
      "https://gist.github.com/" ++ gistUser ++ "/" ++ toString host.nextId ∧
    List.lookup host.nextId
        (publishChangelogGist host gistUser publisher releaseVersion
          changelogBasename fileLines now).1.gists =
      some ⟨true, changelogBasename,
        "# Spinnaker " ++ releaseVersion ++ "\n" ++ joinAll fileLines ++
          "\n\nGenerated by " ++ publisher ++ " at " ++ formatTimestamp now,
        "Changelog for Spinnaker " ++ releaseVersion⟩ := by
  constructor
  · rfl
  · have hstore : (publishChangelogGist host gistUser publisher releaseVersion
        changelogBasename fileLines now).1.gists =
        host.gists ++ [(host.nextId,
          ⟨true, changelogBasename,
            joinAll ((changelogTitle releaseVersion :: fileLines) ++
              [changelogSignature publisher (formatTimestamp now)]),
            gistDescription releaseVersion⟩)] := rfl
    rw [hstore, lookup_append_fresh _ _ _ hfresh]
    have hc : joinAll ((changelogTitle releaseVersion :: fileLines) ++
        [changelogSignature publisher (formatTimestamp now)]) =
        "# Spinnaker " ++ releaseVersion ++ "\n" ++ joinAll fileLines ++
          "\n\nGenerated by " ++ publisher ++ " at " ++ formatTimestamp now := by
      rw [List.cons_append, joinAll, joinAll_append]
      simp [joinAll, changelogTitle, changelogSignature, String.append_assoc]
    rw [hc]
    rfl

/-- Witness for C5 at the spec's example content, release `1.2.3`,
publisher `acme-ci`. -/
theorem c5_witness :
    List.lookup (0 : Nat)
        (publishChangelogGist ⟨0, []⟩ "acme-bot" "acme-ci" "1.2.3"
          "changelog.md" ["Fixed bug X\n"] ⟨2023, 1, 1, 12, 0, 0⟩).1.gists =
      some ⟨true, "changelog.md",
        "# Spinnaker " ++ "1.2.3" ++ "\n" ++ joinAll ["Fixed bug X\n"] ++
          "\n\nGenerated by " ++ "acme-ci" ++ " at " ++
            formatTimestamp ⟨2023, 1, 1, 12, 0, 0⟩,
        "Changelog for Spinnaker " ++ "1.2.3"⟩ :=
  (c5_changelog_gist_structure ⟨0, []⟩ "acme-bot" "acme-ci" "1.2.3"
      "changelog.md" ["Fixed bug X\n"] ⟨2023, 1, 1, 12, 0, 0⟩ (by decide)).2
